import Mathlib

/-!
Shallow embedding of the relational operator layer found in
`ibis/expr/operations/relations.py`: the operator node taxonomy, the
structural equality engine, join construction (self-join disambiguation,
predicate normalisation, provenance validation), schema resolution and the
fusion protocol (`sort_by`, `aggregate`).  Machinery that the source file
consumes from external collaborators (the equality-engine dispatch, the
expression handle, the schema value, predicate flattening, provenance
checking, substitution) is modelled from the specification; every such
definition carries a doc comment starting with `Modelled from the spec:`.
Node constructors carry an explicit `nid` field that models the reference
identity of the CPython object: two separately constructed nodes carry
distinct identifiers, and the equality engine's identical-instance
short-circuit is structural equality of the whole term, identifier
included.
-/

deriving instance DecidableEq for Except

/-- Errors raised synchronously during plan construction or comparison. -/
inductive Err where
  | relationError
  | expressionError
  | notImplementedError
  | attributeError
  | keyError
deriving DecidableEq

/-- Column data types of the external schema value. -/
inductive DType where
  | int64
  | float64
  | strT
  | boolT
  | intervalT
deriving DecidableEq

/-- Modelled from the spec: the external Schema value, an ordered mapping
of column name to type. -/
abbrev Schema := List (String × DType)

/-- Value expressions as seen through the external expression handle.
Columns carry their provenance roots (the identities of the root tables
the expression originates from), named aggregates are scalar reductions,
comparisons and conjunctions are what the join predicate normaliser
builds, whole-table and struct-destructuring entries are the remaining
selection shapes that the schema resolver distinguishes. -/
inductive Expr where
  | column (roots : List Nat) (nm : String) (ty : DType)
  | namedAgg (roots : List Nat) (nm : String) (ty : DType)
  | eqCmp (l r : Expr)
  | andE (l r : Expr)
  | boolLit (v : Bool)
  | wholeTable (roots : List Nat) (sch : Schema)
  | destruct (roots : List Nat) (fields : Schema)
  | intervalLit (n : Nat)
deriving DecidableEq

/-- The concrete join variants sharing `Join.__init__`; `AsOfJoin` is a
separate node constructor because it carries extra fields. -/
inductive JoinKind where
  | inner
  | leftJ
  | rightJ
  | outer
  | anyInner
  | anyLeft
  | leftSemi
  | leftAnti
  | cross
deriving DecidableEq

/-- The three set operation variants. -/
inductive SetKind where
  | union
  | intersection
  | difference
deriving DecidableEq

/-- The operator node taxonomy restricted to the variants this development
reasons about.  Field order follows the source class declarations; the
leading `nid` models CPython reference identity.  `Union`'s `distinct`
flag is carried by `udistinct` (vacuously `false` for the other two set
operations, which do not declare it). -/
inductive Node where
  | unbound (nid : Nat) (sch : Schema) (nm : String)
  | join (nid : Nat) (kind : JoinKind) (left right : Node) (predicates : List Expr)
  | asof (nid : Nat) (left right : Node) (predicates byKeys : List Expr) (tolerance : Option Expr)
  | setop (nid : Nat) (kind : SetKind) (udistinct : Bool) (left right : Node)
  | selfref (nid : Nat) (table : Node)
  | selection (nid : Nat) (table : Node) (selections predicates sortKeys : List Expr)
  | aggregation (nid : Nat) (table : Node) (metrics byKeys having predicates sortKeys : List Expr)
  | dropna (nid : Nat) (table : Node) (how : String) (subset : List Expr)
deriving DecidableEq

/-- The concrete variant of a node, as used by the equality engine's
type dispatch: two join nodes of different kinds are different concrete
classes in the source, as are the three set operations. -/
inductive Tag where
  | unboundT
  | joinT (k : JoinKind)
  | asofT
  | setopT (k : SetKind)
  | selfrefT
  | selectionT
  | aggregationT
  | dropnaT
deriving DecidableEq

def tagOf : Node → Tag
  | .unbound .. => .unboundT
  | .join _ k .. => .joinT k
  | .asof .. => .asofT
  | .setop _ k .. => .setopT k
  | .selfref .. => .selfrefT
  | .selection .. => .selectionT
  | .aggregation .. => .aggregationT
  | .dropna .. => .dropnaT

/-- The reference identity of a node. -/
def nid : Node → Nat
  | .unbound i .. => i
  | .join i .. => i
  | .asof i .. => i
  | .setop i .. => i
  | .selfref i .. => i
  | .selection i .. => i
  | .aggregation i .. => i
  | .dropna i .. => i

/-- All identities occurring in a node term. -/
def allNids : Node → List Nat
  | .unbound i _ _ => [i]
  | .join i _ l r _ => i :: (allNids l ++ allNids r)
  | .asof i l r _ _ _ => i :: (allNids l ++ allNids r)
  | .setop i _ _ l r => i :: (allNids l ++ allNids r)
  | .selfref i t => i :: allNids t
  | .selection i t _ _ _ => i :: allNids t
  | .aggregation i t _ _ _ _ _ => i :: allNids t
  | .dropna i t _ _ => i :: allNids t

/-- `blocks()`: materialisation boundaries for the fusion protocol.
`Selection.blocks` is `bool(self.selections)` from the source; the
variants without an override take the non-blocking default, modelled
from the spec. -/
def blocksB : Node → Bool
  | .unbound .. => true
  | .join .. => false
  | .asof .. => false
  | .setop .. => true
  | .selfref .. => true
  | .selection _ _ sels _ _ => !sels.isEmpty
  | .aggregation .. => true
  | .dropna .. => false

def isJoinOrSelectionB : Node → Bool
  | .join .. => true
  | .asof .. => true
  | .selection .. => true
  | _ => false

def dedupByIdGo : List Node → List Nat → List Node
  | [], _ => []
  | n :: rest, seen =>
      if nid n ∈ seen then dedupByIdGo rest seen
      else n :: dedupByIdGo rest (nid n :: seen)

/-- Modelled from the spec: `distinct_roots` keeps the first occurrence of
each root, comparing roots by reference identity. -/
def dedupById (ns : List Node) : List Node := dedupByIdGo ns []

/-- `root_tables()`.  `Selection`, `SelfReference` report themselves and
`Join` refuses to unravel past two joined/selected sides (all from the
source); boundary nodes without an override report themselves and
non-blocking nodes pass through to their child, modelled from the spec. -/
def rootTables : Node → List Node
  | .unbound i s n => [.unbound i s n]
  | .join i k l r p =>
      if isJoinOrSelectionB l && isJoinOrSelectionB r then [l, r]
      else dedupById (rootTables l ++ rootTables r)
  | .asof i l r p b t =>
      if isJoinOrSelectionB l && isJoinOrSelectionB r then [l, r]
      else dedupById (rootTables l ++ rootTables r)
  | .setop i k d l r => [.setop i k d l r]
  | .selfref i t => [.selfref i t]
  | .selection i t s p k => [.selection i t s p k]
  | .aggregation i t m b h p k => [.aggregation i t m b h p k]
  | .dropna _ t _ _ => rootTables t

def rootIds (n : Node) : List Nat := (rootTables n).map nid

/-- Provenance roots of an expression. -/
def exprRoots : Expr → List Nat
  | .column rs _ _ => rs
  | .namedAgg rs _ _ => rs
  | .eqCmp l r => exprRoots l ++ exprRoots r
  | .andE l r => exprRoots l ++ exprRoots r
  | .boolLit _ => []
  | .wholeTable rs _ => rs
  | .destruct rs _ => rs
  | .intervalLit _ => []

/-- The type of a value expression as reported by the expression handle;
whole-table and destructuring entries are not value expressions and are
never consulted for their type. -/
def dtypeOf : Expr → DType
  | .column _ _ ty => ty
  | .namedAgg _ _ ty => ty
  | .eqCmp _ _ => .boolT
  | .andE _ _ => .boolT
  | .boolLit _ => .boolT
  | .wholeTable _ _ => .boolT
  | .destruct _ _ => .boolT
  | .intervalLit _ => .intervalT

/-- Whether an expression is columnar (an `ir.ColumnExpr`): a comparison
or conjunction is columnar when either operand is; reductions and
literals are scalars. -/
def isColumnar : Expr → Bool
  | .column .. => true
  | .eqCmp l r => isColumnar l || isColumnar r
  | .andE l r => isColumnar l || isColumnar r
  | _ => false

/-- The `isinstance(pred, ir.BooleanColumn)` test of the source. -/
def isBooleanColumn (e : Expr) : Bool :=
  decide (dtypeOf e = DType.boolT) && isColumnar e

/-- `get_name()` of the expression handle; fails on expressions that do
not carry a name. -/
def getNameE : Expr → Except Err String
  | .column _ n _ => .ok n
  | .namedAgg _ n _ => .ok n
  | _ => .error .expressionError

/-- Modelled from the spec: the external predicate flattening service —
conjunctions become a sequence of atomic comparisons, order preserved,
never introducing disjunction. -/
def flattenPredicate : Expr → List Expr
  | .andE l r => flattenPredicate l ++ flattenPredicate r
  | e => [e]

/-- An atomic (non-conjunction) predicate entry. -/
def isAtom : Expr → Bool
  | .andE _ _ => false
  | _ => true

/-- Python `x and y` over boolean computations that may raise: a falsy
left operand short-circuits, a raised error propagates. -/
def andThenB (x : Except Err Bool) (f : Unit → Except Err Bool) : Except Err Bool :=
  match x with
  | .error e => .error e
  | .ok false => .ok false
  | .ok true => f ()

/-- The tolerance comparison inside `AsOfJoin.__component_eq__`:
`(self.tolerance is None and other.tolerance is None) or
self.tolerance.equals(other.tolerance, cache=cache)`.  With tolerance
absent on the left and present on the right the source evaluates
`None.equals(...)`, an `AttributeError`.  Modelled from the spec: with
tolerance present on the left and absent on the right, the expression
handle's `equals` on a non-expression argument reports `false`. -/
def asofToleranceEq : Option Expr → Option Expr → Except Err Bool
  | none, none => .ok true
  | none, some _ => .error .attributeError
  | some t, o => .ok (match o with | none => false | some u => decide (t = u))

/-- `DropNa.__component_eq__` from the source: it compares `how`, then
reads `self.replacements` — a field `DropNa` never declares (`FillNa`
declares it), so the comparison raises `AttributeError` whenever the two
`how` values are equal; the declared `subset` field is never examined. -/
def dropnaComponentEq (how1 : String) (sub1 : List Expr) (t1 : Node)
    (how2 : String) (sub2 : List Expr) (t2 : Node) : Except Err Bool :=
  if how1 = how2 then .error .attributeError else .ok false

/-- The structural equality engine over the node DAG.  The dispatch
(identical-instance short-circuit, concrete-variant discrimination) is
modelled from the spec; each same-variant arm is the `__component_eq__`
of the corresponding source class, with field comparisons in source
order and Python's lazy `and` modelled by `andThenB`. -/
def nodeEquals : Node → Node → Except Err Bool
  | a, b =>
    if a = b then .ok true
    else
      match a, b with
      | .unbound _ s1 n1, .unbound _ s2 n2 =>
          andThenB (.ok (decide (n1 = n2))) (fun _ => .ok (decide (s1 = s2)))
      | .join _ k1 l1 r1 p1, .join _ k2 l2 r2 p2 =>
          if k1 = k2 then
            if k1 = JoinKind.cross then
              andThenB (nodeEquals l1 l2) (fun _ => nodeEquals r1 r2)
            else
              andThenB (.ok (decide (p1 = p2))) (fun _ =>
                andThenB (nodeEquals l1 l2) (fun _ => nodeEquals r1 r2))
          else .ok false
      | .asof _ l1 r1 p1 b1 t1, .asof _ l2 r2 p2 b2 t2 =>
          andThenB (asofToleranceEq t1 t2) (fun _ =>
            andThenB (.ok (decide (b1 = b2))) (fun _ =>
              andThenB (.ok (decide (p1 = p2))) (fun _ =>
                andThenB (nodeEquals l1 l2) (fun _ => nodeEquals r1 r2))))
      | .setop _ k1 _ l1 r1, .setop _ k2 _ l2 r2 =>
          if k1 = k2 then
            andThenB (nodeEquals l1 l2) (fun _ => nodeEquals r1 r2)
          else .ok false
      | .selfref _ t1, .selfref _ t2 => nodeEquals t1 t2
      | .selection _ t1 s1 p1 k1, .selection _ t2 s2 p2 k2 =>
          andThenB (.ok (decide (s1 = s2))) (fun _ =>
            andThenB (.ok (decide (p1 = p2))) (fun _ =>
              andThenB (.ok (decide (k1 = k2))) (fun _ => nodeEquals t1 t2)))
      | .aggregation _ t1 m1 b1 h1 p1 k1, .aggregation _ t2 m2 b2 h2 p2 k2 =>
          andThenB (.ok (decide (m1 = m2))) (fun _ =>
            andThenB (.ok (decide (b1 = b2))) (fun _ =>
              andThenB (.ok (decide (h1 = h2))) (fun _ =>
                andThenB (.ok (decide (p1 = p2))) (fun _ =>
                  andThenB (.ok (decide (k1 = k2))) (fun _ => nodeEquals t1 t2)))))
      | .dropna _ t1 h1 u1, .dropna _ t2 h2 u2 =>
          dropnaComponentEq h1 u1 t1 h2 u2 t2
      | _, _ => .ok false

/-- Modelled from the spec: duplicate-name detection of the external
Schema constructor — a name collision is a hard construction failure. -/
def mkSchema (cols : List (String × DType)) : Except Err Schema :=
  if (cols.map Prod.fst).Nodup then .ok cols else .error .relationError

/-- Modelled from the spec: `Schema.append`, a disjoint-union that fails
on overlapping names. -/
def appendSchema (a b : Schema) : Except Err Schema :=
  if ((a ++ b).map Prod.fst).Nodup then .ok (a ++ b) else .error .relationError

/-- One selection entry's contribution to `Selection.schema`: a
struct-destructuring entry contributes one column per struct field, a
whole-table entry contributes all of that table's columns, a value entry
contributes one column under its resolved name. -/
def selEntryCols : Expr → Except Err (List (String × DType))
  | .destruct _ fields => .ok fields
  | .wholeTable _ sch => .ok sch
  | e =>
      match getNameE e with
      | .error err => .error err
      | .ok n => .ok [(n, dtypeOf e)]

def collectSelCols : List Expr → Except Err (List (String × DType))
  | [] => .ok []
  | p :: rest =>
      match selEntryCols p with
      | .error err => .error err
      | .ok cs =>
          match collectSelCols rest with
          | .error err => .error err
          | .ok more => .ok (cs ++ more)

/-- One entry's contribution to `Aggregation.schema`: a destructuring
value expands to its struct fields, anything else contributes its
resolved name and type (there is no whole-table case here). -/
def aggEntryCols : Expr → Except Err (List (String × DType))
  | .destruct _ fields => .ok fields
  | e =>
      match getNameE e with
      | .error err => .error err
      | .ok n => .ok [(n, dtypeOf e)]

def collectAggCols : List Expr → Except Err (List (String × DType))
  | [] => .ok []
  | p :: rest =>
      match aggEntryCols p with
      | .error err => .error err
      | .ok cs =>
          match collectAggCols rest with
          | .error err => .error err
          | .ok more => .ok (cs ++ more)

/-- Per-variant schema inference: declared for physical tables, the
disjoint union of both sides for schema-retaining joins, the left schema
for semi/anti joins and set operations, inherited for self-references and
null-dropping, computed by expansion for `Selection` (inherited when
there are no explicit selections) and for `Aggregation` (group keys
followed by metrics). -/
def schemaOf : Node → Except Err Schema
  | .unbound _ s _ => .ok s
  | .join _ k l r _ =>
      if k = JoinKind.leftSemi ∨ k = JoinKind.leftAnti then schemaOf l
      else
        match schemaOf l with
        | .error e => .error e
        | .ok ls =>
            match schemaOf r with
            | .error e => .error e
            | .ok rs => appendSchema ls rs
  | .asof _ l r _ _ _ =>
      match schemaOf l with
      | .error e => .error e
      | .ok ls =>
          match schemaOf r with
          | .error e => .error e
          | .ok rs => appendSchema ls rs
  | .setop _ _ _ l _ => schemaOf l
  | .selfref _ t => schemaOf t
  | .selection _ t sels _ _ =>
      if sels.isEmpty then schemaOf t
      else
        match collectSelCols sels with
        | .error e => .error e
        | .ok cols => mkSchema cols
  | .aggregation _ _ m b _ _ _ =>
      match collectAggCols (b ++ m) with
      | .error e => .error e
      | .ok cols => mkSchema cols
  | .dropna _ t _ _ => schemaOf t

/-- Modelled from the spec: the expression handle's non-failing
provenance check `isValid` — every root of every expression must be
among the table's root tables. -/
def isValid (t : Node) (es : List Expr) : Bool :=
  es.all fun e => (exprRoots e).all fun r => decide (r ∈ rootIds t)

/-- Modelled from the spec: the expression handle's failing provenance
check `assertValid`, raising a relation error when an expression does
not originate from the table. -/
def assertValidE (t : Node) (es : List Expr) : Except Err Unit :=
  if isValid t es then .ok () else .error .relationError

/-- Modelled from the spec: the external provenance check
`fullyOriginatesFrom(expr, roots)`. -/
def fullyOriginatesFrom (e : Expr) (roots : List Nat) : Bool :=
  (exprRoots e).all fun r => decide (r ∈ roots)

/-- Modelled from the spec: the external `FilterValidator` — every filter
predicate must be a boolean expression originating from the declared
input table. -/
def validateFilters (t : Node) (preds : List Expr) : Except Err Unit :=
  if preds.all (fun p => decide (dtypeOf p = DType.boolT)) then
    if isValid t preds then .ok () else .error .relationError
  else .error .expressionError

/-- `Selection.__init__`: assert selections and sort keys are valid
against the table, validate the predicates, freeze the node, then assert
its schema (the duplicate-column check). -/
def mkSelection (selId : Nat) (table : Node)
    (selections predicates sortKeys : List Expr) : Except Err Node :=
  match assertValidE table (selections ++ sortKeys) with
  | .error e => .error e
  | .ok _ =>
      match validateFilters table predicates with
      | .error e => .error e
      | .ok _ =>
          match schemaOf (.selection selId table selections predicates sortKeys) with
          | .error e => .error e
          | .ok _ => .ok (.selection selId table selections predicates sortKeys)

/-- `Aggregation.__init__`: assert all component expressions are valid
against the table, validate the predicates, discard the sort keys when
there are no group keys, freeze the node, then assert its schema. -/
def mkAggregation (aggId : Nat) (table : Node)
    (metrics byKeys having predicates sortKeys : List Expr) : Except Err Node :=
  match assertValidE table (metrics ++ byKeys ++ having ++ sortKeys) with
  | .error e => .error e
  | .ok _ =>
      match validateFilters table predicates with
      | .error e => .error e
      | .ok _ =>
          let sk := if byKeys.isEmpty then [] else sortKeys
          match schemaOf (.aggregation aggId table metrics byKeys having predicates sk) with
          | .error e => .error e
          | .ok _ => .ok (.aggregation aggId table metrics byKeys having predicates sk)

/-- `SetOp.__init__`: the two input schemas must already be equal,
otherwise construction fails with a relation error before anything
else. -/
def mkSetOp (sid : Nat) (kind : SetKind) (udistinct : Bool)
    (left right : Node) : Except Err Node :=
  match schemaOf left with
  | .error e => .error e
  | .ok ls =>
      match schemaOf right with
      | .error e => .error e
      | .ok rs =>
          if ls = rs then .ok (.setop sid kind udistinct left right)
          else .error .relationError

/-- The shapes a join predicate argument may arrive in: a tuple of keys,
a shared column name, an already-built expression, or anything else
(rejected). -/
inductive PredKey where
  | nameKey (s : String)
  | exprKey (e : Expr)
deriving DecidableEq

inductive JoinPred where
  | tup (elems : List PredKey)
  | str (nm : String)
  | ex (e : Expr)
  | otherShape
deriving DecidableEq

def lookupCol : Schema → String → Option DType
  | [], _ => none
  | (n, ty) :: rest, nm => if n = nm then some ty else lookupCol rest nm

/-- Modelled from the spec: the expression handle's column access
`table[name]` — a column rooted at the table's root tables, failing when
the name is absent from the schema. -/
def getColumn (t : Node) (nm : String) : Except Err Expr :=
  match schemaOf t with
  | .error e => .error e
  | .ok sch =>
      match lookupCol sch nm with
      | some ty => .ok (.column (rootIds t) nm ty)
      | none => .error .keyError

/-- Modelled from the spec: `_ensure_expr` — a string key resolves to the
table's column, an already-built expression passes through. -/
def ensureExpr (t : Node) : PredKey → Except Err Expr
  | .nameKey s => getColumn t s
  | .exprKey e => .ok e

/-- One step of `_clean_join_predicates`: normalise a single incoming
predicate.  A tuple must have exactly two keys and becomes the equality
of the left key resolved against `left` and the right key resolved
against `right`; a string name becomes `left[name] == right[name]`; an
expression is used as-is; any other shape is rejected. -/
def cleanOnePred (left right : Node) : JoinPred → Except Err Expr
  | .tup [k1, k2] =>
      match ensureExpr left k1 with
      | .error e => .error e
      | .ok lk =>
          match ensureExpr right k2 with
          | .error e => .error e
          | .ok rk => .ok (.eqCmp lk rk)
  | .tup _ => .error .expressionError
  | .str nm =>
      match getColumn left nm with
      | .error e => .error e
      | .ok lc =>
          match getColumn right nm with
          | .error e => .error e
          | .ok rc => .ok (.eqCmp lc rc)
  | .ex e => .ok e
  | .otherShape => .error .notImplementedError

/-- The loop body of `_clean_join_predicates`: each normalised predicate
must be a boolean column expression, then is flattened and its atoms
appended to the result. -/
def cleanLoop (left right : Node) : List JoinPred → Except Err (List Expr)
  | [] => .ok []
  | p :: rest =>
      match cleanOnePred left right p with
      | .error e => .error e
      | .ok pe =>
          if isBooleanColumn pe then
            match cleanLoop left right rest with
            | .error e => .error e
            | .ok more => .ok (flattenPredicate pe ++ more)
          else .error .expressionError

/-- `_validate_join_predicates`: every flattened predicate must fully
originate from the combined roots of the two join sides. -/
def validateJoinPredicatesE (left right : Node) (preds : List Expr) : Except Err Unit :=
  if preds.all (fun p => fullyOriginatesFrom p (rootIds left ++ rootIds right)) then .ok ()
  else .error .relationError

/-- `_clean_join_predicates`: normalise, boolean-check and flatten every
incoming predicate, then validate provenance of the whole batch. -/
def cleanJoinPredicates (left right : Node) (preds : List JoinPred) : Except Err (List Expr) :=
  match cleanLoop left right preds with
  | .error e => .error e
  | .ok result =>
      match validateJoinPredicatesE left right result with
      | .error e => .error e
      | .ok _ => .ok result

/-- `_make_distinct_join_predicates`: when the two sides are equal
according to the equality engine, the right side is replaced by a fresh
`SelfReference` (the expression handle's `view()`, whose new object
identity is `refId`) before the predicates are cleaned. -/
def makeDistinctJoinPredicates (refId : Nat) (left right : Node)
    (predicates : List JoinPred) : Except Err (Node × Node × List Expr) :=
  match nodeEquals left right with
  | .error e => .error e
  | .ok eqv =>
      let r := if eqv then Node.selfref refId right else right
      match cleanJoinPredicates left r predicates with
      | .error e => .error e
      | .ok ps => .ok (left, r, ps)

/-- `Join.__init__` for the plain join variants. -/
def mkJoin (joinId refId : Nat) (kind : JoinKind) (left right : Node)
    (predicates : List JoinPred) : Except Err Node :=
  match makeDistinctJoinPredicates refId left right predicates with
  | .error e => .error e
  | .ok (l, r, ps) => .ok (.join joinId kind l r ps)

/-- `AsOfJoin.__init__`: the `by` clause is cleaned against the original
left and right sides first, then the shared join construction (with its
self-join substitution) runs on the predicates. -/
def mkAsOfJoin (joinId refId : Nat) (left right : Node)
    (predicates byPreds : List JoinPred) (tolerance : Option Expr) : Except Err Node :=
  match cleanJoinPredicates left right byPreds with
  | .error e => .error e
  | .ok byKeys =>
      match makeDistinctJoinPredicates refId left right predicates with
      | .error e => .error e
      | .ok (l, r, ps) => .ok (.asof joinId l r ps byKeys tolerance)

/-- Modelled from the spec: the sort-key conversion helper of the missing
sortkeys module; requested keys arrive here already resolved as
expressions and pass through unchanged. -/
def maybeConvertSortKeys (tables : List Node) (keys : List Expr) : List Expr := keys

/-- `Selection.sort_by`: a non-blocking selection whose table accepts the
resolved keys is rebuilt over the same table with the keys appended
(fusion); otherwise a fresh selection over the supplied expression
carries only the new keys.  Any other node takes `TableNode.sort_by`,
which always wraps. -/
def selectionSortBy (newId : Nat) (this expr : Node) (sortExprs : List Expr) : Except Err Node :=
  match this with
  | .selection selId table sels preds sorts =>
      let resolved := maybeConvertSortKeys [table, expr] sortExprs
      if !blocksB (.selection selId table sels preds sorts) && isValid table resolved then
        mkSelection newId table sels preds (sorts ++ resolved)
      else
        mkSelection newId expr [] [] resolved
  | _ => mkSelection newId expr [] [] (maybeConvertSortKeys [this, expr] sortExprs)

/-- `Aggregation.sort_by`: keys valid against the aggregation's table are
appended to a rebuilt aggregation; otherwise a fresh selection over the
aggregation result carries only the new keys. -/
def aggregationSortBy (newId : Nat) (this expr : Node) (sortExprs : List Expr) : Except Err Node :=
  match this with
  | .aggregation _ table metrics byKeys having predicates sortKeys =>
      let resolved := maybeConvertSortKeys [table, expr] sortExprs
      if isValid table resolved then
        mkAggregation newId table metrics byKeys having predicates (sortKeys ++ resolved)
      else
        mkSelection newId expr [] [] resolved
  | _ => mkSelection newId expr [] [] (maybeConvertSortKeys [this, expr] sortExprs)

/-- Modelled from the spec: the expression handle's `resolve`, a
best-effort rebind; already-built expressions pass through unchanged. -/
def resolveExprs (t : Node) (es : List Expr) : Option (List Expr) := some es

def subRoots (fromId : Nat) (toRoots : List Nat) : List Nat → List Nat
  | [] => []
  | r :: rest => (if r = fromId then toRoots else [r]) ++ subRoots fromId toRoots rest

/-- Modelled from the spec: the external substitution service `sub_for`,
rebinding every reference rooted at the outer node onto the roots of the
inner table. -/
def subFor (fromId : Nat) (toRoots : List Nat) : Expr → Expr
  | .column rs n t => .column (subRoots fromId toRoots rs) n t
  | .namedAgg rs n t => .namedAgg (subRoots fromId toRoots rs) n t
  | .eqCmp l r => .eqCmp (subFor fromId toRoots l) (subFor fromId toRoots r)
  | .andE l r => .andE (subFor fromId toRoots l) (subFor fromId toRoots r)
  | .wholeTable rs s => .wholeTable (subRoots fromId toRoots rs) s
  | .destruct rs f => .destruct (subRoots fromId toRoots rs) f
  | .boolLit v => .boolLit v
  | .intervalLit n => .intervalLit n

/-- `AggregateSelection._pushdown_exprs`: nothing to push down succeeds
trivially; otherwise resolve against the inner table, substitute the
outer selection for the inner table in each resolved expression, and
report whether the substituted batch is valid against the inner table. -/
def pushdownExprs (parentId : Nat) (table : Node) (exprs : List Expr) : Bool × List Expr :=
  if exprs.isEmpty then (true, [])
  else
    match resolveExprs table exprs with
    | none => (false, [])
    | some resolved =>
        if resolved.isEmpty then (false, [])
        else
          let subbed := resolved.map (subFor parentId (rootIds table))
          (isValid table subbed, subbed)

/-- `AggregateSelection._attempt_pushdown`: when metrics, group keys and
having clauses all lower validly onto the inner table, build the
aggregation directly over it, carrying the selection's predicates and
sort keys; otherwise fall back to a plain aggregation over the parent. -/
def attemptPushdown (aggId : Nat) (parent table : Node)
    (selPreds selSorts metrics byKeys having : List Expr) : Except Err Node :=
  let pm := pushdownExprs (nid parent) table metrics
  let pb := pushdownExprs (nid parent) table byKeys
  let ph := pushdownExprs (nid parent) table having
  if pm.1 && pb.1 && ph.1 then
    mkAggregation aggId table pm.2 pb.2 ph.2 selPreds selSorts
  else
    mkAggregation aggId parent metrics byKeys having [] []

/-- `AggregateSelection.get_result`: a blocking parent takes the plain
subquery, a non-blocking one attempts pushdown. -/
def aggregateSelectionGetResult (aggId : Nat) (parent table : Node)
    (selPreds selSorts metrics byKeys having : List Expr) : Except Err Node :=
  if blocksB parent then mkAggregation aggId parent metrics byKeys having [] []
  else attemptPushdown aggId parent table selPreds selSorts metrics byKeys having

/-- `Selection.aggregate`: with explicit selections the aggregation is
always built over the selection itself; without them the
`AggregateSelection` helper runs.  Any other node takes
`TableNode.aggregate`, a plain aggregation. -/
def selectionAggregate (aggId : Nat) (this : Node)
    (metrics byKeys having : List Expr) : Except Err Node :=
  match this with
  | .selection selId table sels preds sorts =>
      if 0 < sels.length then
        mkAggregation aggId (.selection selId table sels preds sorts) metrics byKeys having [] []
      else
        aggregateSelectionGetResult aggId (.selection selId table sels preds sorts)
          table preds sorts metrics byKeys having
  | other => mkAggregation aggId other metrics byKeys having [] []

lemma isValid_append (t : Node) (a b : List Expr) :
    isValid t (a ++ b) = (isValid t a && isValid t b) := by
  simp [isValid, List.all_append]

lemma mkSelection_ok {selId : Nat} {table : Node}
    {selections predicates sortKeys : List Expr} {n : Node}
    (h : mkSelection selId table selections predicates sortKeys = .ok n) :
    n = .selection selId table selections predicates sortKeys := by
  unfold mkSelection at h
  cases hv : assertValidE table (selections ++ sortKeys) <;> rw [hv] at h <;> simp at h
  cases hf : validateFilters table predicates <;> rw [hf] at h <;> simp at h
  cases hs : schemaOf (.selection selId table selections predicates sortKeys) <;>
    rw [hs] at h <;> simp at h
  exact h.symm

lemma mkAggregation_ok {aggId : Nat} {table : Node}
    {metrics byKeys having predicates sortKeys : List Expr} {n : Node}
    (h : mkAggregation aggId table metrics byKeys having predicates sortKeys = .ok n) :
    n = .aggregation aggId table metrics byKeys having predicates
          (if byKeys = [] then [] else sortKeys) := by
  unfold mkAggregation at h
  cases hv : assertValidE table (metrics ++ byKeys ++ having ++ sortKeys) <;> rw [hv] at h <;>
    simp at h
  cases hf : validateFilters table predicates <;> rw [hf] at h <;> simp at h
  cases hs : schemaOf (.aggregation aggId table metrics byKeys having predicates
      (if byKeys = [] then [] else sortKeys)) <;> rw [hs] at h <;> simp at h
  exact h.symm

/-- C9: comparing two AsOfJoin nodes where the first has no tolerance and
the second has one raises an AttributeError instead of returning a
boolean, while the swapped comparison evaluates the comparison on the
real tolerance object and returns false — AsOfJoin component equality is
not a total boolean function on mixed tolerance presence and is not
symmetric there. -/
theorem asof_mixed_tolerance_crash (i1 i2 : Nat) (l1 r1 l2 r2 : Node)
    (p1 b1 p2 b2 : List Expr) (t : Expr) :
    nodeEquals (.asof i1 l1 r1 p1 b1 none) (.asof i2 l2 r2 p2 b2 (some t))
        = .error .attributeError
    ∧ asofToleranceEq none (some t) = .error .attributeError
    ∧ nodeEquals (.asof i2 l2 r2 p2 b2 (some t)) (.asof i1 l1 r1 p1 b1 none)
        = .ok false := by
  refine ⟨?_, rfl, ?_⟩ <;> simp [nodeEquals, asofToleranceEq, andThenB]

/-- C10: `DropNa.__component_eq__` reads the undeclared `replacements`
field, so comparing two distinct DropNa nodes with equal `how` always
raises an AttributeError rather than returning a boolean; DropNa
equality on distinct instances is undefined and the declared `subset`
field can never influence the comparison. -/
theorem dropna_component_eq_crash (i1 i2 : Nat) (t1 t2 : Node) (hw : String)
    (s1 s2 : List Expr)
    (hne : Node.dropna i1 t1 hw s1 ≠ Node.dropna i2 t2 hw s2) :
    nodeEquals (.dropna i1 t1 hw s1) (.dropna i2 t2 hw s2) = .error .attributeError
    ∧ dropnaComponentEq hw s1 t1 hw s2 t2 = .error .attributeError
    ∧ (∀ (h1 h2 : String) (a1 a2 b1 b2 : List Expr) (u1 u2 : Node),
        dropnaComponentEq h1 a1 u1 h2 a2 u2 = dropnaComponentEq h1 b1 u1 h2 b2 u2) := by
  refine ⟨?_, ?_, ?_⟩
  · simp [nodeEquals, hne, dropnaComponentEq]
  · simp [dropnaComponentEq]
  · intro h1 h2 a1 a2 b1 b2 u1 u2
    simp [dropnaComponentEq]

theorem dropna_component_eq_crash_witness :
    nodeEquals (.dropna 0 (.unbound 7 [] "t") "any" [])
        (.dropna 1 (.unbound 7 [] "t") "any" []) = .error .attributeError :=
  (dropna_component_eq_crash 0 1 (.unbound 7 [] "t") (.unbound 7 [] "t") "any" [] []
    (by decide)).1

/-- C6: constructing any set operation whose input schemas are not
structurally equal fails with a relation error at construction time, and
every successfully constructed set operation node reports the left
input's schema. -/
theorem setop_schema_check (sid : Nat) (kind : SetKind) (d : Bool) (l r : Node) :
    (∀ ls rs, schemaOf l = .ok ls → schemaOf r = .ok rs → ls ≠ rs →
        mkSetOp sid kind d l r = .error .relationError)
    ∧ (∀ n, mkSetOp sid kind d l r = .ok n →
        n = .setop sid kind d l r ∧ schemaOf n = schemaOf l) := by
  constructor
  · intro ls rs hl hr hne
    simp [mkSetOp, hl, hr, hne]
  · intro n h
    unfold mkSetOp at h
    cases hl : schemaOf l <;> rw [hl] at h <;> simp at h
    cases hr : schemaOf r <;> rw [hr] at h <;> simp at h
    split at h <;> simp at h
    subst h
    exact ⟨rfl, by simp [schemaOf, hl]⟩

theorem setop_schema_check_witness :
    mkSetOp 5 SetKind.union false (.unbound 0 [("a", DType.int64)] "x")
        (.unbound 1 [("a", DType.strT)] "y") = .error .relationError :=
  (setop_schema_check 5 .union false (.unbound 0 [("a", DType.int64)] "x")
      (.unbound 1 [("a", DType.strT)] "y")).1
    [("a", DType.int64)] [("a", DType.strT)] rfl rfl (by decide)

/-- C7: an Aggregation constructed with an empty group-by list stores
empty sort keys regardless of the supplied ones, and `Aggregation.sort_by`
rebuilds the aggregation with the new keys appended to the existing ones
when the new keys are valid against its table, otherwise wraps the
aggregation result in a fresh selection carrying only the new keys. -/
theorem aggregation_sort_rules (aggId newId : Nat) (table expr : Node)
    (metrics having predicates sortKeys sortExprs : List Expr) :
    (∀ (supplied : List Expr) (n : Node),
        mkAggregation aggId table metrics [] having predicates supplied = .ok n →
        n = .aggregation aggId table metrics [] having predicates [])
    ∧ (∀ byKeys : List Expr, isValid table sortExprs = true →
        aggregationSortBy newId
            (.aggregation aggId table metrics byKeys having predicates sortKeys) expr sortExprs
          = mkAggregation newId table metrics byKeys having predicates (sortKeys ++ sortExprs))
    ∧ (∀ byKeys : List Expr, isValid table sortExprs = false →
        aggregationSortBy newId
            (.aggregation aggId table metrics byKeys having predicates sortKeys) expr sortExprs
          = mkSelection newId expr [] [] sortExprs) := by
  refine ⟨?_, ?_, ?_⟩
  · intro supplied n h
    simpa using mkAggregation_ok h
  · intro byKeys hvalid
    simp [aggregationSortBy, maybeConvertSortKeys, hvalid]
  · intro byKeys hvalid
    simp [aggregationSortBy, maybeConvertSortKeys, hvalid]

theorem aggregation_sort_rules_witness :
    mkAggregation 3 (.unbound 0 [("a", DType.int64)] "x")
        [.namedAgg [0] "m" DType.int64] [] [] [] [.column [0] "a" DType.int64] =
      .ok (.aggregation 3 (.unbound 0 [("a", DType.int64)] "x")
        [.namedAgg [0] "m" DType.int64] [] [] [] [])
    ∧ isValid (.unbound 0 [("a", DType.int64)] "x") [.column [0] "a" DType.int64] = true
    ∧ aggregationSortBy 4
        (.aggregation 3 (.unbound 0 [("a", DType.int64)] "x")
          [.namedAgg [0] "m" DType.int64] [] [] [] [])
        (.unbound 9 [] "w") [.column [0] "a" DType.int64]
      = mkAggregation 4 (.unbound 0 [("a", DType.int64)] "x")
          [.namedAgg [0] "m" DType.int64] [] [] []
          ([] ++ [.column [0] "a" DType.int64]) :=
  ⟨by decide, by decide,
    (aggregation_sort_rules 3 4 (.unbound 0 [("a", DType.int64)] "x") (.unbound 9 [] "w")
        [.namedAgg [0] "m" DType.int64] [] [] [] [.column [0] "a" DType.int64]).2.1
      [] (by decide)⟩

/-- C8 (amended): construction of a join with a predicate tuple whose
length is not two fails synchronously with an expression error (the
source raises `com.ExpressionError`, not a relation error). -/
theorem join_tuple_length_expression_error (joinId refId : Nat) (kind : JoinKind)
    (l r : Node) (elems : List PredKey) (rest : List JoinPred) (b : Bool)
    (hlen : elems.length ≠ 2) (heq : nodeEquals l r = .ok b) :
    mkJoin joinId refId kind l r (.tup elems :: rest) = .error .expressionError := by
  have harm : ∀ lft rgt, cleanOnePred lft rgt (.tup elems) = .error .expressionError := by
    intro lft rgt
    match elems, hlen with
    | [], _ => rfl
    | [_], _ => rfl
    | [_, _], h => exact absurd rfl h
    | _ :: _ :: _ :: _, _ => rfl
  cases b <;>
    simp [mkJoin, makeDistinctJoinPredicates, heq, cleanJoinPredicates, cleanLoop, harm]

/-- C8 (counterexample): at a concrete join construction with a
three-element key tuple the raised error is an expression error, not the
relation error the claim states. -/
theorem join_tuple_length_error_kind_counterexample :
    mkJoin 10 11 JoinKind.inner (.unbound 0 [("a", DType.int64)] "x")
        (.unbound 1 [("a", DType.int64)] "y")
        [.tup [.nameKey "a", .nameKey "a", .nameKey "a"]] ≠ .error .relationError
    ∧ mkJoin 10 11 JoinKind.inner (.unbound 0 [("a", DType.int64)] "x")
        (.unbound 1 [("a", DType.int64)] "y")
        [.tup [.nameKey "a", .nameKey "a", .nameKey "a"]] = .error .expressionError := by
  exact ⟨by decide, by decide⟩

theorem join_tuple_length_expression_error_witness :
    mkJoin 10 11 JoinKind.leftJ (.unbound 0 [("a", DType.int64)] "x")
        (.unbound 1 [("a", DType.int64)] "y") [.tup []] = .error .expressionError :=
  join_tuple_length_expression_error 10 11 .leftJ (.unbound 0 [("a", DType.int64)] "x")
    (.unbound 1 [("a", DType.int64)] "y") [] [] false (by decide) (by decide)

/-- C1: `Selection.aggregate` — with explicit selections the result is
always an aggregation built over the selection itself; with no explicit
selections and all three groups lowering validly onto the inner table,
the aggregation is built directly over the inner table carrying the
selection's predicates and sort keys; when any group fails to lower, the
result is a plain aggregation over the original selection unmodified. -/
theorem selection_aggregate_fusion (aggId selId : Nat) (table : Node)
    (sels preds sorts metrics byKeys having : List Expr) :
    (sels ≠ [] →
      selectionAggregate aggId (.selection selId table sels preds sorts) metrics byKeys having
        = mkAggregation aggId (.selection selId table sels preds sorts)
            metrics byKeys having [] [])
    ∧ (sels = [] →
        (pushdownExprs selId table metrics).1 = true →
        (pushdownExprs selId table byKeys).1 = true →
        (pushdownExprs selId table having).1 = true →
        selectionAggregate aggId (.selection selId table sels preds sorts) metrics byKeys having
          = mkAggregation aggId table (pushdownExprs selId table metrics).2
              (pushdownExprs selId table byKeys).2 (pushdownExprs selId table having).2
              preds sorts)
    ∧ (sels = [] →
        ((pushdownExprs selId table metrics).1 && (pushdownExprs selId table byKeys).1 &&
            (pushdownExprs selId table having).1) = false →
        selectionAggregate aggId (.selection selId table sels preds sorts) metrics byKeys having
          = mkAggregation aggId (.selection selId table sels preds sorts)
              metrics byKeys having [] []) := by
  refine ⟨?_, ?_, ?_⟩
  · intro h
    simp [selectionAggregate, List.length_pos.mpr h]
  · intro h hm hb hh
    subst h
    simp [selectionAggregate, aggregateSelectionGetResult, blocksB, attemptPushdown, nid,
      hm, hb, hh]
  · intro h hfalse
    subst h
    simp [selectionAggregate, aggregateSelectionGetResult, blocksB, attemptPushdown, nid, hfalse]

theorem selection_aggregate_fusion_witness :
    selectionAggregate 9
        (.selection 5 (.unbound 0 [("a", DType.int64)] "ta") [] [.column [0] "a" DType.boolT] [])
        [.namedAgg [5] "m" DType.int64] [] []
      = mkAggregation 9 (.unbound 0 [("a", DType.int64)] "ta")
          (pushdownExprs 5 (.unbound 0 [("a", DType.int64)] "ta") [.namedAgg [5] "m" DType.int64]).2
          (pushdownExprs 5 (.unbound 0 [("a", DType.int64)] "ta") []).2
          (pushdownExprs 5 (.unbound 0 [("a", DType.int64)] "ta") []).2
          [.column [0] "a" DType.boolT] [] :=
  (selection_aggregate_fusion 9 5 (.unbound 0 [("a", DType.int64)] "ta")
      [] [.column [0] "a" DType.boolT] [] [.namedAgg [5] "m" DType.int64] [] []).2.1
    rfl (by decide) (by decide) (by decide)

/-- C2: `Selection.sort_by` — a non-blocking selection with valid new
keys is rebuilt over the same table, selections and predicates with the
old keys followed by the new ones; otherwise a fresh selection over the
supplied expression carries only the new keys; applying it twice to a
freshly built unfiltered selection yields one selection whose keys are
the concatenation of both calls. -/
theorem selection_sort_by_fusion (newId selId : Nat) (table expr : Node)
    (sels preds sorts sortExprs : List Expr) :
    (sels = [] → isValid table sortExprs = true →
        selectionSortBy newId (.selection selId table sels preds sorts) expr sortExprs
          = mkSelection newId table sels preds (sorts ++ sortExprs))
    ∧ (blocksB (.selection selId table sels preds sorts) = true ∨
          isValid table sortExprs = false →
        selectionSortBy newId (.selection selId table sels preds sorts) expr sortExprs
          = mkSelection newId expr [] [] sortExprs)
    ∧ (∀ (i0 i1 i2 : Nat) (base e1 e2 : Node) (k1 k2 : List Expr) (ts : Schema),
        schemaOf base = .ok ts → isValid base k1 = true → isValid base k2 = true →
        selectionSortBy i1 (.selection i0 base [] [] []) e1 k1
            = .ok (.selection i1 base [] [] k1)
        ∧ selectionSortBy i2 (.selection i1 base [] [] k1) e2 k2
            = .ok (.selection i2 base [] [] (k1 ++ k2))) := by
  refine ⟨?_, ?_, ?_⟩
  · intro h hvalid
    subst h
    simp [selectionSortBy, maybeConvertSortKeys, blocksB, hvalid]
  · intro h
    rcases h with h | h
    · simp [blocksB] at h
      simp [selectionSortBy, maybeConvertSortKeys, blocksB, h]
    · simp [selectionSortBy, maybeConvertSortKeys, blocksB, h]
  · intro i0 i1 i2 base e1 e2 k1 k2 ts hsch hv1 hv2
    have hempty : isValid base ([] : List Expr) = true := by simp [isValid]
    constructor
    · simp [selectionSortBy, maybeConvertSortKeys, blocksB, hv1, mkSelection, assertValidE,
        validateFilters, hempty, schemaOf, hsch]
    · simp [selectionSortBy, maybeConvertSortKeys, blocksB, hv2, mkSelection, assertValidE,
        validateFilters, isValid_append, hv1, hempty, schemaOf, hsch]

theorem selection_sort_by_fusion_witness :
    selectionSortBy 6 (.selection 5 (.unbound 0 [("a", DType.int64), ("b", DType.strT)] "ta") [] [] [])
        (.unbound 9 [] "w") [.column [0] "a" DType.int64]
      = .ok (.selection 6 (.unbound 0 [("a", DType.int64), ("b", DType.strT)] "ta") [] []
          [.column [0] "a" DType.int64])
    ∧ selectionSortBy 7
        (.selection 6 (.unbound 0 [("a", DType.int64), ("b", DType.strT)] "ta") [] []
          [.column [0] "a" DType.int64])
        (.unbound 9 [] "w") [.column [0] "b" DType.strT]
      = .ok (.selection 7 (.unbound 0 [("a", DType.int64), ("b", DType.strT)] "ta") [] []
          ([.column [0] "a" DType.int64] ++ [.column [0] "b" DType.strT])) :=
  (selection_sort_by_fusion 6 5 (.unbound 0 [("a", DType.int64), ("b", DType.strT)] "ta")
      (.unbound 9 [] "w") [] [] [] []).2.2 5 6 7
    (.unbound 0 [("a", DType.int64), ("b", DType.strT)] "ta") (.unbound 9 [] "w")
    (.unbound 9 [] "w") [.column [0] "a" DType.int64] [.column [0] "b" DType.strT]
    [("a", DType.int64), ("b", DType.strT)] rfl (by decide) (by decide)

lemma flatten_atoms : ∀ (e : Expr), ∀ x ∈ flattenPredicate e, isAtom x = true := by
  intro e
  induction e with
  | column rs n ty => intro x hx; simp [flattenPredicate] at hx; subst hx; rfl
  | namedAgg rs n ty => intro x hx; simp [flattenPredicate] at hx; subst hx; rfl
  | eqCmp l r ihl ihr => intro x hx; simp [flattenPredicate] at hx; subst hx; rfl
  | andE l r ihl ihr =>
      intro x hx
      simp [flattenPredicate] at hx
      rcases hx with h | h
      · exact ihl x h
      · exact ihr x h
  | boolLit v => intro x hx; simp [flattenPredicate] at hx; subst hx; rfl
  | wholeTable rs s => intro x hx; simp [flattenPredicate] at hx; subst hx; rfl
  | destruct rs f => intro x hx; simp [flattenPredicate] at hx; subst hx; rfl
  | intervalLit n => intro x hx; simp [flattenPredicate] at hx; subst hx; rfl

lemma cleanLoop_atoms (left right : Node) : ∀ (ps : List JoinPred) (out : List Expr),
    cleanLoop left right ps = .ok out → ∀ x ∈ out, isAtom x = true := by
  intro ps
  induction ps with
  | nil =>
      intro out h x hx
      simp [cleanLoop] at h
      subst h
      simp at hx
  | cons p rest ih =>
      intro out h x hx
      unfold cleanLoop at h
      cases hc : cleanOnePred left right p <;> rw [hc] at h <;> simp at h
      split at h
      · cases hrest : cleanLoop left right rest <;> rw [hrest] at h <;> simp at h
        subst h
        rcases List.mem_append.mp hx with hmem | hmem
        · exact flatten_atoms _ x hmem
        · exact ih _ hrest x hmem
      · simp at h

/-- C4: join predicate normalisation — a two-element tuple becomes the
equality of its keys resolved against the respective sides, a string
name becomes the comparison of both sides' columns of that name, an
expression passes through, any other shape (including a tuple of wrong
length) is rejected, a predicate that is not a boolean column raises an
expression error, and every stored predicate entry is an atomic
comparison. -/
theorem join_predicate_normalisation (l r : Node) :
    (∀ elems : List PredKey, elems.length ≠ 2 →
        cleanJoinPredicates l r [.tup elems] = .error .expressionError)
    ∧ (∀ (k1 k2 : PredKey) (lk rk : Expr),
        ensureExpr l k1 = .ok lk → ensureExpr r k2 = .ok rk →
        cleanJoinPredicates l r [.tup [k1, k2]] = cleanJoinPredicates l r [.ex (.eqCmp lk rk)])
    ∧ (∀ (nm : String) (lc rc : Expr),
        getColumn l nm = .ok lc → getColumn r nm = .ok rc →
        cleanJoinPredicates l r [.str nm] = cleanJoinPredicates l r [.ex (.eqCmp lc rc)])
    ∧ cleanJoinPredicates l r [.otherShape] = .error .notImplementedError
    ∧ (∀ e : Expr, isBooleanColumn e = false →
        cleanJoinPredicates l r [.ex e] = .error .expressionError)
    ∧ (∀ (preds : List JoinPred) (out : List Expr),
        cleanJoinPredicates l r preds = .ok out → ∀ x ∈ out, isAtom x = true) := by
  refine ⟨?_, ?_, ?_, rfl, ?_, ?_⟩
  · intro elems h
    match elems, h with
    | [], _ => rfl
    | [_], _ => rfl
    | [_, _], h => exact absurd rfl h
    | _ :: _ :: _ :: _, _ => rfl
  · intro k1 k2 lk rk h1 h2
    simp [cleanJoinPredicates, cleanLoop, cleanOnePred, h1, h2]
  · intro nm lc rc h1 h2
    simp [cleanJoinPredicates, cleanLoop, cleanOnePred, h1, h2]
  · intro e he
    simp [cleanJoinPredicates, cleanLoop, cleanOnePred, he]
  · intro preds out h x hx
    unfold cleanJoinPredicates at h
    cases hl : cleanLoop l r preds <;> rw [hl] at h <;> simp at h
    cases hv : validateJoinPredicatesE l r _ <;> rw [hv] at h <;> simp at h
    subst h
    exact cleanLoop_atoms l r preds _ hl x hx

theorem join_predicate_normalisation_witness :
    cleanJoinPredicates (.unbound 0 [("a", DType.boolT)] "x")
        (.unbound 1 [("a", DType.boolT)] "y") [.str "a"]
      = cleanJoinPredicates (.unbound 0 [("a", DType.boolT)] "x")
          (.unbound 1 [("a", DType.boolT)] "y")
          [.ex (.eqCmp (.column [0] "a" DType.boolT) (.column [1] "a" DType.boolT))] :=
  (join_predicate_normalisation (.unbound 0 [("a", DType.boolT)] "x")
      (.unbound 1 [("a", DType.boolT)] "y")).2.2.1
    "a" (.column [0] "a" DType.boolT) (.column [1] "a" DType.boolT) (by decide) (by decide)

lemma nid_mem_allNids (n : Node) : nid n ∈ allNids n := by
  cases n <;> simp [nid, allNids]

lemma mem_dedupByIdGo : ∀ (ns : List Node) (seen : List Nat) (x : Node),
    x ∈ dedupByIdGo ns seen → x ∈ ns := by
  intro ns
  induction ns with
  | nil => intro seen x h; simp [dedupByIdGo] at h
  | cons n rest ih =>
      intro seen x h
      unfold dedupByIdGo at h
      split at h
      · exact List.mem_cons_of_mem _ (ih _ _ h)
      · rcases List.mem_cons.mp h with h | h
        · exact h ▸ List.mem_cons_self _ _
        · exact List.mem_cons_of_mem _ (ih _ _ h)

lemma rootTables_nid_mem : ∀ (n x : Node), x ∈ rootTables n → nid x ∈ allNids n := by
  intro n
  induction n with
  | unbound i s nm =>
      intro x h
      simp [rootTables] at h
      subst h
      simp [nid, allNids]
  | join i k l r p ihl ihr =>
      intro x h
      rw [rootTables] at h
      split at h
      · simp at h
        simp [allNids, List.mem_append]
        rcases h with h | h
        · exact Or.inr (Or.inl (h ▸ nid_mem_allNids l))
        · exact Or.inr (Or.inr (h ▸ nid_mem_allNids r))
      · simp [allNids, List.mem_append]
        rcases List.mem_append.mp (mem_dedupByIdGo _ _ _ h) with h | h
        · exact Or.inr (Or.inl (ihl _ h))
        · exact Or.inr (Or.inr (ihr _ h))
  | asof i l r p b t ihl ihr =>
      intro x h
      rw [rootTables] at h
      split at h
      · simp at h
        simp [allNids, List.mem_append]
        rcases h with h | h
        · exact Or.inr (Or.inl (h ▸ nid_mem_allNids l))
        · exact Or.inr (Or.inr (h ▸ nid_mem_allNids r))
      · simp [allNids, List.mem_append]
        rcases List.mem_append.mp (mem_dedupByIdGo _ _ _ h) with h | h
        · exact Or.inr (Or.inl (ihl _ h))
        · exact Or.inr (Or.inr (ihr _ h))
  | setop i k d l r ihl ihr =>
      intro x h
      simp [rootTables] at h
      subst h
      simp [nid, allNids]
  | selfref i t ih =>
      intro x h
      simp [rootTables] at h
      subst h
      simp [nid, allNids]
  | selection i t s p k ih =>
      intro x h
      simp [rootTables] at h
      subst h
      simp [nid, allNids]
  | aggregation i t m b hv p k ih =>
      intro x h
      simp [rootTables] at h
      subst h
      simp [nid, allNids]
  | dropna i t hw s ih =>
      intro x h
      rw [rootTables] at h
      exact List.mem_cons_of_mem _ (ih _ h)

lemma selfref_ne (x : Node) (i : Nat) : x ≠ .selfref i x := by
  intro h
  have hlen : (allNids x).length < (allNids (Node.selfref i x)).length := by
    simp [allNids]
  rw [← h] at hlen
  exact lt_irrefl _ hlen

lemma selfref_ne_left (x : Node) (i : Nat) : Node.selfref i x ≠ x :=
  fun h => selfref_ne x i h.symm

lemma nodeEquals_selfref_self : ∀ (x : Node) (i : Nat),
    nodeEquals x (.selfref i x) = .ok false := by
  intro x
  induction x with
  | unbound j s nm => intro i; rfl
  | join j k l r p ihl ihr =>
      intro i
      unfold nodeEquals
      rw [if_neg (selfref_ne _ i)]
  | asof j l r p b t ihl ihr =>
      intro i
      unfold nodeEquals
      rw [if_neg (selfref_ne _ i)]
  | setop j k d l r ihl ihr =>
      intro i
      unfold nodeEquals
      rw [if_neg (selfref_ne _ i)]
  | selfref j u ih =>
      intro i
      unfold nodeEquals
      rw [if_neg (selfref_ne _ i)]
      exact ih j
  | selection j t s p k ih =>
      intro i
      unfold nodeEquals
      rw [if_neg (selfref_ne _ i)]
  | aggregation j t m b hv p k ih =>
      intro i
      unfold nodeEquals
      rw [if_neg (selfref_ne _ i)]
  | dropna j t hw s ih =>
      intro i
      unfold nodeEquals
      rw [if_neg (selfref_ne _ i)]

lemma nodeEquals_selfref_self_left : ∀ (x : Node) (i : Nat),
    nodeEquals (.selfref i x) x = .ok false := by
  intro x
  induction x with
  | unbound j s nm => intro i; rfl
  | join j k l r p ihl ihr =>
      intro i
      unfold nodeEquals
      rw [if_neg (selfref_ne_left _ i)]
  | asof j l r p b t ihl ihr =>
      intro i
      unfold nodeEquals
      rw [if_neg (selfref_ne_left _ i)]
  | setop j k d l r ihl ihr =>
      intro i
      unfold nodeEquals
      rw [if_neg (selfref_ne_left _ i)]
  | selfref j u ih =>
      intro i
      unfold nodeEquals
      rw [if_neg (selfref_ne_left _ i)]
      exact ih j
  | selection j t s p k ih =>
      intro i
      unfold nodeEquals
      rw [if_neg (selfref_ne_left _ i)]
  | aggregation j t m b hv p k ih =>
      intro i
      unfold nodeEquals
      rw [if_neg (selfref_ne_left _ i)]
  | dropna j t hw s ih =>
      intro i
      unfold nodeEquals
      rw [if_neg (selfref_ne_left _ i)]

lemma nodeEquals_wrap_false : ∀ (l r : Node) (i : Nat), l ≠ .selfref i r →
    nodeEquals l r = .ok true → nodeEquals l (.selfref i r) = .ok false := by
  intro l
  induction l with
  | unbound j s nm =>
      intro r i hne h
      unfold nodeEquals
      rw [if_neg hne]
  | join j k lft rgt p ihl ihr =>
      intro r i hne h
      unfold nodeEquals
      rw [if_neg hne]
  | asof j lft rgt p b t ihl ihr =>
      intro r i hne h
      unfold nodeEquals
      rw [if_neg hne]
  | setop j k d lft rgt ihl ihr =>
      intro r i hne h
      unfold nodeEquals
      rw [if_neg hne]
  | selfref j u ih =>
      intro r i hne h
      unfold nodeEquals
      rw [if_neg hne]
      show nodeEquals u r = .ok false
      by_cases hcase : Node.selfref j u = r
      · subst hcase
        exact nodeEquals_selfref_self u j
      · unfold nodeEquals at h
        rw [if_neg hcase] at h
        cases r with
        | unbound a b c =>
            exact absurd (show (Except.ok false : Except Err Bool) = .ok true from h) (by simp)
        | join a b c d e =>
            exact absurd (show (Except.ok false : Except Err Bool) = .ok true from h) (by simp)
        | asof a b c d e f =>
            exact absurd (show (Except.ok false : Except Err Bool) = .ok true from h) (by simp)
        | setop a b c d e =>
            exact absurd (show (Except.ok false : Except Err Bool) = .ok true from h) (by simp)
        | selection a b c d e =>
            exact absurd (show (Except.ok false : Except Err Bool) = .ok true from h) (by simp)
        | aggregation a b c d e f g =>
            exact absurd (show (Except.ok false : Except Err Bool) = .ok true from h) (by simp)
        | dropna a b c d =>
            exact absurd (show (Except.ok false : Except Err Bool) = .ok true from h) (by simp)
        | selfref kk w =>
            have h2 : nodeEquals u w = Except.ok true := h
            show nodeEquals u (.selfref kk w) = .ok false
            refine ih w kk ?_ h2
            intro hcontra
            rw [hcontra] at h2
            rw [nodeEquals_selfref_self_left w kk] at h2
            exact absurd h2 (by simp)
  | selection j t s p k ih =>
      intro r i hne h
      unfold nodeEquals
      rw [if_neg hne]
  | aggregation j t m b hv p k ih =>
      intro r i hne h
      unfold nodeEquals
      rw [if_neg hne]
  | dropna j t hw s ih =>
      intro r i hne h
      unfold nodeEquals
      rw [if_neg hne]

/-- C3: when the two join inputs are equal according to the equality
engine, the builder replaces the right side with a fresh SelfReference
wrapping it before the predicates are cleaned; the constructed right
side is not equal to the left side even though the wrapped underlying
table is equal to it, and the two sides' root tables differ because the
SelfReference reports itself as its own root. -/
theorem self_join_disambiguation (refId : Nat) (left right : Node) (preds : List JoinPred)
    (hfresh : refId ∉ allNids left) (heq : nodeEquals left right = .ok true) :
    (∀ ps, cleanJoinPredicates left (.selfref refId right) preds = .ok ps →
        makeDistinctJoinPredicates refId left right preds
          = .ok (left, .selfref refId right, ps))
    ∧ (∀ e, cleanJoinPredicates left (.selfref refId right) preds = .error e →
        makeDistinctJoinPredicates refId left right preds = .error e)
    ∧ nodeEquals left (.selfref refId right) = .ok false
    ∧ nodeEquals left right = .ok true
    ∧ rootTables (.selfref refId right) = [.selfref refId right]
    ∧ rootTables left ≠ rootTables (.selfref refId right) := by
  have hne : left ≠ Node.selfref refId right := by
    intro h
    apply hfresh
    have hmem := nid_mem_allNids left
    have hid : nid left = refId := by rw [h]; rfl
    exact hid ▸ hmem
  refine ⟨?_, ?_, nodeEquals_wrap_false left right refId hne heq, heq, rfl, ?_⟩
  · intro ps hps
    simp [makeDistinctJoinPredicates, heq, hps]
  · intro e he
    simp [makeDistinctJoinPredicates, heq, he]
  · intro hcontra
    apply hfresh
    have hmem : Node.selfref refId right ∈ rootTables left := by
      rw [hcontra, rootTables]
      exact List.mem_singleton.mpr rfl
    have := rootTables_nid_mem left _ hmem
    exact this

theorem self_join_disambiguation_witness :
    makeDistinctJoinPredicates 11 (.unbound 0 [("a", DType.boolT)] "t")
        (.unbound 1 [("a", DType.boolT)] "t") [.str "a"]
      = .ok (.unbound 0 [("a", DType.boolT)] "t",
             .selfref 11 (.unbound 1 [("a", DType.boolT)] "t"),
             [.eqCmp (.column [0] "a" DType.boolT) (.column [11] "a" DType.boolT)])
    ∧ nodeEquals (.unbound 0 [("a", DType.boolT)] "t")
        (.selfref 11 (.unbound 1 [("a", DType.boolT)] "t")) = .ok false
    ∧ rootTables (.unbound 0 [("a", DType.boolT)] "t")
        ≠ rootTables (.selfref 11 (.unbound 1 [("a", DType.boolT)] "t")) :=
  have h := self_join_disambiguation 11 (.unbound 0 [("a", DType.boolT)] "t")
    (.unbound 1 [("a", DType.boolT)] "t") [.str "a"] (by decide) (by decide)
  ⟨h.1 [.eqCmp (.column [0] "a" DType.boolT) (.column [11] "a" DType.boolT)] (by decide),
   h.2.2.1, h.2.2.2.2.2⟩

/-- Symmetry up to raised errors: whenever both comparisons return a
boolean, the booleans agree. -/
def okSymm (x y : Except Err Bool) : Prop :=
  ∀ v w : Bool, x = .ok v → y = .ok w → v = w

lemma okSymm_self (x : Except Err Bool) : okSymm x x := by
  intro v w hv hw
  rw [hv] at hw
  exact Except.ok.inj hw

lemma okSymm_decide {α : Type} [DecidableEq α] (a b : α) :
    okSymm (.ok (decide (a = b))) (.ok (decide (b = a))) := by
  intro v w hv hw
  have h1 := Except.ok.inj hv
  have h2 := Except.ok.inj hw
  subst h1
  subst h2
  by_cases h : a = b
  · subst h; rfl
  · simp [h, Ne.symm h]

lemma andThenB_okSymm {x1 y1 x2 y2 : Except Err Bool}
    (h1 : okSymm x1 y1) (h2 : okSymm x2 y2) :
    okSymm (andThenB x1 fun _ => x2) (andThenB y1 fun _ => y2) := by
  intro v w hv hw
  cases hx1 : x1 with
  | error e => rw [hx1] at hv; simp [andThenB] at hv
  | ok b1 =>
    cases hy1 : y1 with
    | error e => rw [hy1] at hw; simp [andThenB] at hw
    | ok c1 =>
      have hbc : b1 = c1 := h1 b1 c1 hx1 hy1
      subst hbc
      rw [hx1] at hv
      rw [hy1] at hw
      cases b1
      · simp [andThenB] at hv hw
        rw [hv, hw]
      · exact h2 v w (by simpa [andThenB] using hv) (by simpa [andThenB] using hw)

lemma asofToleranceEq_okSymm (t1 t2 : Option Expr) :
    okSymm (asofToleranceEq t1 t2) (asofToleranceEq t2 t1) := by
  cases t1 with
  | none =>
    cases t2 with
    | none => exact okSymm_self _
    | some u =>
        intro v w hv hw
        simp [asofToleranceEq] at hv
  | some t =>
    cases t2 with
    | none =>
        intro v w hv hw
        simp [asofToleranceEq] at hw
    | some u =>
        intro v w hv hw
        simp [asofToleranceEq] at hv hw
        subst hv
        subst hw
        by_cases h : t = u
        · subst h; rfl
        · simp [h, Ne.symm h]

lemma nodeEquals_unbound_eqn {i1 i2 : Nat} {s1 s2 : Schema} {n1 n2 : String}
    (hne : Node.unbound i1 s1 n1 ≠ .unbound i2 s2 n2) :
    nodeEquals (.unbound i1 s1 n1) (.unbound i2 s2 n2)
      = andThenB (.ok (decide (n1 = n2))) fun _ => .ok (decide (s1 = s2)) := by
  conv_lhs => rw [nodeEquals]
  rw [if_neg hne]

lemma nodeEquals_join_eqn {i1 i2 : Nat} {k1 k2 : JoinKind} {l1 r1 l2 r2 : Node}
    {p1 p2 : List Expr} (hne : Node.join i1 k1 l1 r1 p1 ≠ .join i2 k2 l2 r2 p2) :
    nodeEquals (.join i1 k1 l1 r1 p1) (.join i2 k2 l2 r2 p2)
      = if k1 = k2 then
          (if k1 = JoinKind.cross then andThenB (nodeEquals l1 l2) fun _ => nodeEquals r1 r2
           else andThenB (.ok (decide (p1 = p2))) fun _ =>
             andThenB (nodeEquals l1 l2) fun _ => nodeEquals r1 r2)
        else .ok false := by
  conv_lhs => rw [nodeEquals]
  rw [if_neg hne]

lemma nodeEquals_asof_eqn {i1 i2 : Nat} {l1 r1 l2 r2 : Node} {p1 b1 p2 b2 : List Expr}
    {t1 t2 : Option Expr} (hne : Node.asof i1 l1 r1 p1 b1 t1 ≠ .asof i2 l2 r2 p2 b2 t2) :
    nodeEquals (.asof i1 l1 r1 p1 b1 t1) (.asof i2 l2 r2 p2 b2 t2)
      = andThenB (asofToleranceEq t1 t2) fun _ =>
          andThenB (.ok (decide (b1 = b2))) fun _ =>
            andThenB (.ok (decide (p1 = p2))) fun _ =>
              andThenB (nodeEquals l1 l2) fun _ => nodeEquals r1 r2 := by
  conv_lhs => rw [nodeEquals]
  rw [if_neg hne]

lemma nodeEquals_setop_eqn {i1 i2 : Nat} {k1 k2 : SetKind} {d1 d2 : Bool}
    {l1 r1 l2 r2 : Node} (hne : Node.setop i1 k1 d1 l1 r1 ≠ .setop i2 k2 d2 l2 r2) :
    nodeEquals (.setop i1 k1 d1 l1 r1) (.setop i2 k2 d2 l2 r2)
      = if k1 = k2 then andThenB (nodeEquals l1 l2) fun _ => nodeEquals r1 r2
        else .ok false := by
  conv_lhs => rw [nodeEquals]
  rw [if_neg hne]

lemma nodeEquals_selfref_eqn {i1 i2 : Nat} {t1 t2 : Node}
    (hne : Node.selfref i1 t1 ≠ .selfref i2 t2) :
    nodeEquals (.selfref i1 t1) (.selfref i2 t2) = nodeEquals t1 t2 := by
  conv_lhs => rw [nodeEquals]
  rw [if_neg hne]

lemma nodeEquals_selection_eqn {i1 i2 : Nat} {t1 t2 : Node} {s1 p1 k1 s2 p2 k2 : List Expr}
    (hne : Node.selection i1 t1 s1 p1 k1 ≠ .selection i2 t2 s2 p2 k2) :
    nodeEquals (.selection i1 t1 s1 p1 k1) (.selection i2 t2 s2 p2 k2)
      = andThenB (.ok (decide (s1 = s2))) fun _ =>
          andThenB (.ok (decide (p1 = p2))) fun _ =>
            andThenB (.ok (decide (k1 = k2))) fun _ => nodeEquals t1 t2 := by
  conv_lhs => rw [nodeEquals]
  rw [if_neg hne]

lemma nodeEquals_aggregation_eqn {i1 i2 : Nat} {t1 t2 : Node}
    {m1 b1 h1 p1 k1 m2 b2 h2 p2 k2 : List Expr}
    (hne : Node.aggregation i1 t1 m1 b1 h1 p1 k1 ≠ .aggregation i2 t2 m2 b2 h2 p2 k2) :
    nodeEquals (.aggregation i1 t1 m1 b1 h1 p1 k1) (.aggregation i2 t2 m2 b2 h2 p2 k2)
      = andThenB (.ok (decide (m1 = m2))) fun _ =>
          andThenB (.ok (decide (b1 = b2))) fun _ =>
            andThenB (.ok (decide (h1 = h2))) fun _ =>
              andThenB (.ok (decide (p1 = p2))) fun _ =>
                andThenB (.ok (decide (k1 = k2))) fun _ => nodeEquals t1 t2 := by
  conv_lhs => rw [nodeEquals]
  rw [if_neg hne]

lemma nodeEquals_dropna_eqn {i1 i2 : Nat} {t1 t2 : Node} {h1 h2 : String}
    {u1 u2 : List Expr} (hne : Node.dropna i1 t1 h1 u1 ≠ .dropna i2 t2 h2 u2) :
    nodeEquals (.dropna i1 t1 h1 u1) (.dropna i2 t2 h2 u2)
      = dropnaComponentEq h1 u1 t1 h2 u2 t2 := by
  conv_lhs => rw [nodeEquals]
  rw [if_neg hne]

lemma nodeEquals_refl (a : Node) : nodeEquals a a = .ok true := by
  unfold nodeEquals
  rw [if_pos rfl]

lemma ne_of_tag_ne {a b : Node} (h : tagOf a ≠ tagOf b) : a ≠ b :=
  fun hh => h (hh ▸ rfl)

lemma nodeEquals_tag_ne : ∀ a b : Node, tagOf a ≠ tagOf b → nodeEquals a b = .ok false := by
  intro a b h
  have hab : a ≠ b := ne_of_tag_ne h
  cases a <;> cases b
  case unbound.unbound => simp [tagOf] at h
  case join.join =>
    simp [tagOf] at h
    rw [nodeEquals_join_eqn hab, if_neg h]
  case asof.asof => simp [tagOf] at h
  case setop.setop =>
    simp [tagOf] at h
    rw [nodeEquals_setop_eqn hab, if_neg h]
  case selfref.selfref => simp [tagOf] at h
  case selection.selection => simp [tagOf] at h
  case aggregation.aggregation => simp [tagOf] at h
  case dropna.dropna => simp [tagOf] at h
  all_goals rfl

lemma dropnaComponentEq_okSymm (h1 h2 : String) (u1 u2 : List Expr) (t1 t2 : Node) :
    okSymm (dropnaComponentEq h1 u1 t1 h2 u2 t2) (dropnaComponentEq h2 u2 t2 h1 u1 t1) := by
  intro v w hv hw
  unfold dropnaComponentEq at hv hw
  by_cases hh : h1 = h2
  · rw [if_pos hh] at hv
    simp at hv
  · rw [if_neg hh] at hv
    rw [if_neg (Ne.symm hh)] at hw
    have hv' := Except.ok.inj hv
    have hw' := Except.ok.inj hw
    rw [← hv', ← hw']

lemma nodeEquals_ok_symm : ∀ a b : Node, okSymm (nodeEquals a b) (nodeEquals b a) := by
  intro a
  induction a with
  | unbound i1 s1 n1 =>
      intro b
      by_cases hab : Node.unbound i1 s1 n1 = b
      · rw [← hab]; exact okSymm_self _
      · by_cases htag : tagOf (Node.unbound i1 s1 n1) = tagOf b
        · cases b <;> try simp [tagOf] at htag
          next i2 s2 n2 =>
            rw [nodeEquals_unbound_eqn hab, nodeEquals_unbound_eqn (Ne.symm hab)]
            exact andThenB_okSymm (okSymm_decide n1 n2) (okSymm_decide s1 s2)
        · rw [nodeEquals_tag_ne _ _ htag, nodeEquals_tag_ne _ _ (Ne.symm htag)]
          exact okSymm_self _
  | join i1 k1 l1 r1 p1 ihl ihr =>
      intro b
      by_cases hab : Node.join i1 k1 l1 r1 p1 = b
      · rw [← hab]; exact okSymm_self _
      · by_cases htag : tagOf (Node.join i1 k1 l1 r1 p1) = tagOf b
        · cases b <;> try simp [tagOf] at htag
          next i2 k2 l2 r2 p2 =>
            subst htag
            rw [nodeEquals_join_eqn hab, nodeEquals_join_eqn (Ne.symm hab)]
            rw [if_pos rfl, if_pos rfl]
            by_cases hc : k1 = JoinKind.cross
            · rw [if_pos hc, if_pos hc]
              exact andThenB_okSymm (ihl l2) (ihr r2)
            · rw [if_neg hc, if_neg hc]
              exact andThenB_okSymm (okSymm_decide p1 p2)
                (andThenB_okSymm (ihl l2) (ihr r2))
        · rw [nodeEquals_tag_ne _ _ htag, nodeEquals_tag_ne _ _ (Ne.symm htag)]
          exact okSymm_self _
  | asof i1 l1 r1 p1 b1 t1 ihl ihr =>
      intro b
      by_cases hab : Node.asof i1 l1 r1 p1 b1 t1 = b
      · rw [← hab]; exact okSymm_self _
      · by_cases htag : tagOf (Node.asof i1 l1 r1 p1 b1 t1) = tagOf b
        · cases b <;> try simp [tagOf] at htag
          next i2 l2 r2 p2 b2 t2 =>
            rw [nodeEquals_asof_eqn hab, nodeEquals_asof_eqn (Ne.symm hab)]
            exact andThenB_okSymm (asofToleranceEq_okSymm t1 t2)
              (andThenB_okSymm (okSymm_decide b1 b2)
                (andThenB_okSymm (okSymm_decide p1 p2)
                  (andThenB_okSymm (ihl l2) (ihr r2))))
        · rw [nodeEquals_tag_ne _ _ htag, nodeEquals_tag_ne _ _ (Ne.symm htag)]
          exact okSymm_self _
  | setop i1 k1 d1 l1 r1 ihl ihr =>
      intro b
      by_cases hab : Node.setop i1 k1 d1 l1 r1 = b
      · rw [← hab]; exact okSymm_self _
      · by_cases htag : tagOf (Node.setop i1 k1 d1 l1 r1) = tagOf b
        · cases b <;> try simp [tagOf] at htag
          next i2 k2 d2 l2 r2 =>
            subst htag
            rw [nodeEquals_setop_eqn hab, nodeEquals_setop_eqn (Ne.symm hab)]
            rw [if_pos rfl, if_pos rfl]
            exact andThenB_okSymm (ihl l2) (ihr r2)
        · rw [nodeEquals_tag_ne _ _ htag, nodeEquals_tag_ne _ _ (Ne.symm htag)]
          exact okSymm_self _
  | selfref i1 t1 ih =>
      intro b
      by_cases hab : Node.selfref i1 t1 = b
      · rw [← hab]; exact okSymm_self _
      · by_cases htag : tagOf (Node.selfref i1 t1) = tagOf b
        · cases b <;> try simp [tagOf] at htag
          next i2 t2 =>
            rw [nodeEquals_selfref_eqn hab, nodeEquals_selfref_eqn (Ne.symm hab)]
            exact ih t2
        · rw [nodeEquals_tag_ne _ _ htag, nodeEquals_tag_ne _ _ (Ne.symm htag)]
          exact okSymm_self _
  | selection i1 t1 s1 p1 k1 ih =>
      intro b
      by_cases hab : Node.selection i1 t1 s1 p1 k1 = b
      · rw [← hab]; exact okSymm_self _
      · by_cases htag : tagOf (Node.selection i1 t1 s1 p1 k1) = tagOf b
        · cases b <;> try simp [tagOf] at htag
          next i2 t2 s2 p2 k2 =>
            rw [nodeEquals_selection_eqn hab, nodeEquals_selection_eqn (Ne.symm hab)]
            exact andThenB_okSymm (okSymm_decide s1 s2)
              (andThenB_okSymm (okSymm_decide p1 p2)
                (andThenB_okSymm (okSymm_decide k1 k2) (ih t2)))
        · rw [nodeEquals_tag_ne _ _ htag, nodeEquals_tag_ne _ _ (Ne.symm htag)]
          exact okSymm_self _
  | aggregation i1 t1 m1 b1 h1 p1 k1 ih =>
      intro b
      by_cases hab : Node.aggregation i1 t1 m1 b1 h1 p1 k1 = b
      · rw [← hab]; exact okSymm_self _
      · by_cases htag : tagOf (Node.aggregation i1 t1 m1 b1 h1 p1 k1) = tagOf b
        · cases b <;> try simp [tagOf] at htag
          next i2 t2 m2 b2 h2 p2 k2 =>
            rw [nodeEquals_aggregation_eqn hab, nodeEquals_aggregation_eqn (Ne.symm hab)]
            exact andThenB_okSymm (okSymm_decide m1 m2)
              (andThenB_okSymm (okSymm_decide b1 b2)
                (andThenB_okSymm (okSymm_decide h1 h2)
                  (andThenB_okSymm (okSymm_decide p1 p2)
                    (andThenB_okSymm (okSymm_decide k1 k2) (ih t2)))))
        · rw [nodeEquals_tag_ne _ _ htag, nodeEquals_tag_ne _ _ (Ne.symm htag)]
          exact okSymm_self _
  | dropna i1 t1 h1 u1 ih =>
      intro b
      by_cases hab : Node.dropna i1 t1 h1 u1 = b
      · rw [← hab]; exact okSymm_self _
      · by_cases htag : tagOf (Node.dropna i1 t1 h1 u1) = tagOf b
        · cases b <;> try simp [tagOf] at htag
          next i2 t2 h2 u2 =>
            rw [nodeEquals_dropna_eqn hab, nodeEquals_dropna_eqn (Ne.symm hab)]
            exact dropnaComponentEq_okSymm h1 h2 u1 u2 t1 t2
        · rw [nodeEquals_tag_ne _ _ htag, nodeEquals_tag_ne _ _ (Ne.symm htag)]
          exact okSymm_self _

/-- C5 (amended): node equality is reflexive (comparing a node with
itself, in particular an identical instance, short-circuits to true) and
variant-discriminating (two nodes of different concrete variants never
compare equal, a Selection and an Aggregation over the same table
included), and it is symmetric whenever both comparisons return a
boolean; the AsOfJoin mixed-tolerance and DropNa component comparisons
raise instead of returning a boolean, so unconditional symmetry fails. -/
theorem equality_engine_laws :
    (∀ a : Node, nodeEquals a a = .ok true)
    ∧ (∀ a b : Node, tagOf a ≠ tagOf b → nodeEquals a b = .ok false)
    ∧ (∀ (a b : Node) (v w : Bool),
        nodeEquals a b = .ok v → nodeEquals b a = .ok w → v = w) :=
  ⟨nodeEquals_refl, nodeEquals_tag_ne,
    fun a b v w hv hw => nodeEquals_ok_symm a b v w hv hw⟩

theorem equality_engine_laws_witness :
    nodeEquals (.selection 1 (.unbound 0 [] "t") [] [] [])
        (.aggregation 2 (.unbound 0 [] "t") [] [] [] [] []) = .ok false :=
  equality_engine_laws.2.1 (.selection 1 (.unbound 0 [] "t") [] [] [])
    (.aggregation 2 (.unbound 0 [] "t") [] [] [] [] []) (by decide)

/-- C5 (counterexample): at a concrete pair of AsOfJoin nodes with
tolerance absent on one side only, comparing in one order raises an
AttributeError while the swapped order returns false, so the claimed
unconditional law that equal(a, b) equals equal(b, a) is false. -/
theorem equality_symmetry_counterexample :
    nodeEquals (.asof 1 (.unbound 0 [] "t") (.unbound 0 [] "t") [] [] none)
        (.asof 2 (.unbound 0 [] "t") (.unbound 0 [] "t") [] []
          (some (.intervalLit 1)))
      ≠ nodeEquals (.asof 2 (.unbound 0 [] "t") (.unbound 0 [] "t") [] []
            (some (.intervalLit 1)))
          (.asof 1 (.unbound 0 [] "t") (.unbound 0 [] "t") [] [] none)
    ∧ nodeEquals (.asof 1 (.unbound 0 [] "t") (.unbound 0 [] "t") [] [] none)
        (.asof 2 (.unbound 0 [] "t") (.unbound 0 [] "t") [] []
          (some (.intervalLit 1))) = .error .attributeError := by
  exact ⟨by decide, by decide⟩
